import Mathlib

/-!
Verification development for a TSP comparison program.

The repository's entry point (`src/main.py`) runs three heuristic TSP solvers
(Hill Climbing, Genetic Algorithm, Ant Colony) over a shared problem model and
compares the results.  The solver classes and the problem class live in
packages (`util`, `algoritimos`) that are not part of the available source, so
they are modelled here from the specification; `run_algorithm` and the `main`
comparison loop are embedded from `src/main.py` itself.

Distances are modelled as rationals, cities as strings.
-/

namespace TSP

abbrev City := String

/-- Modelled from the spec: the error taxonomy of section 7 (the classes
themselves are in the missing `util`/`algoritimos` packages). -/

inductive TspError
  | invalidTour
  | noEdge
  | noFeasibleTour
  | invalidConfiguration
deriving DecidableEq

/-- Modelled from the spec: the `TSPProblem` class from the missing `util`
package — a city list, a start city and a distance lookup; `none` means the
pair has no edge (non-complete graphs). -/

structure TSPProblem where
  cities : List City
  start_city : City
  dist : City → City → Option ℚ

/-- The list of edges traversed by a closed tour: each city paired with its
cyclic successor (so the closing edge back to the first city is included). -/

def tourEdges (T : List City) : List (City × City) :=
  T.zip (T.rotate 1)

/-- Whether every edge of the (closed) tour is present in the distance matrix. -/

def edgesDefined (P : TSPProblem) (T : List City) : Bool :=
  (tourEdges T).all fun e => (P.dist e.1 e.2).isSome

/-- Modelled from the spec: tour validity — a permutation of the full city set
whose every consecutive edge, the closing edge included, exists. -/

def isValidTour (P : TSPProblem) (T : List City) : Bool :=
  decide (T.Perm P.cities) && edgesDefined P T

/-- The weight of an edge, defaulting to `0` when the edge is absent (only ever
used under an `edgesDefined` guard). -/

def w (P : TSPProblem) (a b : City) : ℚ :=
  (P.dist a b).getD 0

/-- Total length of a closed tour: the sum of the weights of its cyclic edges. -/

def tourCost (P : TSPProblem) (T : List City) : ℚ :=
  ((tourEdges T).map fun e => w P e.1 e.2).sum

/-- Modelled from the spec: `TSPProblem.path_distance` from the missing `util`
package — fails with `InvalidTourError` if the tour is not a permutation of all
cities or some consecutive edge (wrap-around included) is absent; otherwise
returns the summed distance of the closed tour. -/

def path_distance (P : TSPProblem) (T : List City) : Except TspError ℚ :=
  if T.Perm P.cities then
    if edgesDefined P T then .ok (tourCost P T)
    else .error .invalidTour
  else .error .invalidTour

/-- Modelled from the spec: `distance(a, b)` — fails with `NoEdgeError` when the
pair is not connected. -/

def distance (P : TSPProblem) (a b : City) : Except TspError ℚ :=
  match P.dist a b with
  | some d => .ok d
  | none => .error .noEdge

/-- Modelled from the spec: `neighbors(city)` — the cities directly connected
to `city`. -/

def neighbors (P : TSPProblem) (c : City) : List City :=
  P.cities.filter fun b => (P.dist c b).isSome

/-- A small concrete symmetric 3-city instance (complete graph, unit
distances) used to exercise the model. -/

def exampleProblem : TSPProblem :=
  ⟨["A", "B", "C"], "A", fun a b => if a = b then none else some 1⟩

/-- Whether the distance lookup is symmetric. -/

def symmDist (P : TSPProblem) : Prop :=
  ∀ a b : City, P.dist a b = P.dist b a

/-! ## Hill Climbing solver -/

/-- A convergence trace is non-increasing when each recorded best cost is at
most the previous one. -/

def traceNonIncreasing (tr : List (ℕ × ℚ)) : Prop :=
  List.Chain' (fun a b => b.2 ≤ a.2) tr

/-- Modelled from the spec: one Hill Climbing iteration of the missing
`algoritimos.HillClimbing` class — the perturbation is restricted to moves that
keep every edge valid (here: the proposed candidate is kept only if it is a
valid tour), and a valid candidate is accepted exactly when its cost strictly
improves on the current cost. -/

def hcStep (P : TSPProblem) (cur : List City × ℚ) (cand : List City) :
    List City × ℚ :=
  if isValidTour P cand then
    if tourCost P cand < cur.2 then (cand, tourCost P cand) else cur
  else cur

/-- Modelled from the spec: the Hill Climbing main loop — `i` is the current
iteration index, the second argument the remaining iteration budget, `cand`
supplies the (randomly generated) candidate of each iteration; the pair
`(iteration, current cost)` is recorded at every iteration regardless of
acceptance. -/

def hcIter (P : TSPProblem) (cand : ℕ → List City) :
    ℕ → ℕ → List City × ℚ → (List City × ℚ) × List (ℕ × ℚ)
  | _, 0, st => (st, [])
  | i, fuel + 1, st =>
    let st' := hcStep P st (cand i)
    let rest := hcIter P cand (i + 1) fuel st'
    (rest.1, (i, st'.2) :: rest.2)

/-- Modelled from the spec: the `HillClimbing` solver class of the missing
`algoritimos` package. -/

structure HillClimbing where
  problem : TSPProblem
  max_iterations : ℕ

/-- Modelled from the spec: `HillClimbing` construction — `max_iterations` must
be a positive integer, values ≤ 0 fail with `InvalidConfigurationError`. -/

def HillClimbing.make (P : TSPProblem) (max_iterations : ℤ) :
    Except TspError HillClimbing :=
  if max_iterations ≤ 0 then .error .invalidConfiguration
  else .ok ⟨P, max_iterations.toNat⟩

/-- Modelled from the spec: `HillClimbing.solve` — `init` is the randomized
initial tour construction attempt (validated; an invalid construction is the
bounded-retry failure `NoFeasibleTourError`), `cand` the injected randomized
perturbation source; returns the final tour and the convergence trace. -/

def HillClimbing.solve (hc : HillClimbing) (init : List City)
    (cand : ℕ → List City) : Except TspError (List City × List (ℕ × ℚ)) :=
  if isValidTour hc.problem init then
    let r := hcIter hc.problem cand 0 hc.max_iterations
      (init, tourCost hc.problem init)
    .ok (r.1.1, r.2)
  else .error .noFeasibleTour

/-! ## Genetic Algorithm solver -/

/-- Modelled from the spec: fitness of an individual, `1 / (1 + path_distance)`
(lower distance, higher fitness; avoids division by zero). -/

def fitness (P : TSPProblem) (T : List City) : ℚ :=
  1 / (1 + tourCost P T)

/-- Fold selecting the lowest-cost tour, seeded with `t`. -/

def bestOf (P : TSPProblem) (t : List City) (pop : List (List City)) :
    List City :=
  pop.foldl (fun b c => if tourCost P c < tourCost P b then c else b) t

/-- The best (lowest-cost) individual of a population. -/

def bestTour (P : TSPProblem) : List (List City) → List City
  | [] => []
  | t :: ts => bestOf P t ts

/-- Modelled from the spec: offspring post-processing of the missing
`algoritimos.GeneticAlgorithm` class — an offspring that would violate edge
existence is discarded and replaced by a (parent) member of the current
population, keeping every individual a valid tour. `c.1` is the raw offspring
produced by selection/crossover/mutation, `c.2` the index of its fallback
parent. -/

def makeChild (P : TSPProblem) (pop : List (List City))
    (c : List City × ℕ) : List City :=
  if isValidTour P c.1 then c.1 else pop.getD c.2 (bestTour P pop)

/-- Modelled from the spec: one generation step — elitism places the single
best individual of the current population unmodified into the next population,
followed by the (repaired) offspring. -/

def nextGen (P : TSPProblem) (pop : List (List City))
    (cands : List (List City × ℕ)) : List (List City) :=
  bestTour P pop :: cands.map (makeChild P pop)

/-- Modelled from the spec: the Genetic Algorithm main loop — `g` is the
current generation index, the second argument the remaining generation budget,
`cands` supplies each generation's raw offspring (the injected randomness);
the best population cost is recorded once per generation. -/

def gaIter (P : TSPProblem) (cands : ℕ → List (List City × ℕ)) :
    ℕ → ℕ → List (List City) → List (List City) × List (ℕ × ℚ)
  | _, 0, pop => (pop, [])
  | g, fuel + 1, pop =>
    let pop' := nextGen P pop (cands g)
    let rest := gaIter P cands (g + 1) fuel pop'
    (rest.1, (g, tourCost P (bestTour P pop')) :: rest.2)

/-- Modelled from the spec: the `GeneticAlgorithm` solver class of the missing
`algoritimos` package. -/

structure GeneticAlgorithm where
  problem : TSPProblem
  population_size : ℕ
  generations : ℕ

/-- Modelled from the spec: `GeneticAlgorithm` construction —
`population_size` and `generations` must be positive integers, values ≤ 0 fail
with `InvalidConfigurationError`. -/

def GeneticAlgorithm.make (P : TSPProblem)
    (population_size generations : ℤ) : Except TspError GeneticAlgorithm :=
  if population_size ≤ 0 ∨ generations ≤ 0 then .error .invalidConfiguration
  else .ok ⟨P, population_size.toNat, generations.toNat⟩

/-- Modelled from the spec: `GeneticAlgorithm.solve` — the initial population
construction attempt `initPop` is validated (a failed construction is the
bounded-retry failure `NoFeasibleTourError`); the best individual of the final
population is returned together with the convergence trace. -/

def GeneticAlgorithm.solve (ga : GeneticAlgorithm)
    (initPop : List (List City)) (cands : ℕ → List (List City × ℕ)) :
    Except TspError (List City × List (ℕ × ℚ)) :=
  if initPop ≠ [] ∧ (initPop.all fun t => isValidTour ga.problem t) = true then
    let r := gaIter ga.problem cands 0 ga.generations initPop
    .ok (bestTour ga.problem r.1, r.2)
  else .error .noFeasibleTour

/-! ## Ant Colony solver -/

/-- Modelled from the spec: evaporation — every edge's pheromone is multiplied
by the fixed factor `(1 - rho)`. -/

def evaporate (rho : ℚ) (tau : City × City → ℚ) : City × City → ℚ :=
  fun e => tau e * (1 - rho)

/-- Modelled from the spec: one successful ant's deposit — every edge used by
the ant receives an additional `Q / tour_length`.  `t.1` is the ant's edge
list, `t.2` its tour length. -/

def depositAnt (q : ℚ) (t : List (City × City) × ℚ)
    (tau : City × City → ℚ) : City × City → ℚ :=
  fun e => if e ∈ t.1 then tau e + q / t.2 else tau e

/-- Modelled from the spec: the end-of-iteration pheromone update — first
evaporate every edge, then deposit for each successful ant in turn. -/

def updatePheromone (rho q : ℚ) (tau : City × City → ℚ)
    (tours : List (List (City × City) × ℚ)) : City × City → ℚ :=
  tours.foldl (fun m t => depositAnt q t m) (evaporate rho tau)

/-- The total amount deposited on an edge by the successful ants of one
iteration. -/

def totalDeposit (q : ℚ) (tours : List (List (City × City) × ℚ))
    (e : City × City) : ℚ :=
  (tours.map fun t => if e ∈ t.1 then q / t.2 else 0).sum

/-- Candidate next cities for an ant: unvisited and connected to the current
city by an existing edge. -/

def antChoices (P : TSPProblem) (visited : List City) (cur : City) :
    List City :=
  P.cities.filter fun c => !visited.contains c && (P.dist cur c).isSome

/-- Modelled from the spec: one ant's probabilistic tour construction from the
missing `algoritimos.AntColony` class — starting at the start city the ant
repeatedly moves to an unvisited, edge-connected city (the pheromone-weighted
random choice is abstracted into the injected selector `pick`); a dead end
fails the construction, and the closing edge back to the start must exist.
`acc` holds the visited cities in reverse order, its head being the current
city. -/

def antBuildAux (P : TSPProblem) (pick : ℕ → ℕ) :
    ℕ → City → List City → Option (List City)
  | 0, cur, acc =>
    if acc.length = P.cities.length ∧ (P.dist cur P.start_city).isSome then
      some acc.reverse
    else none
  | fuel + 1, cur, acc =>
    if acc.length = P.cities.length ∧ (P.dist cur P.start_city).isSome then
      some acc.reverse
    else if acc.length = P.cities.length then none
    else
      match antChoices P acc cur with
      | [] => none
      | c0 :: rest =>
        antBuildAux P pick fuel
          ((c0 :: rest).getD (pick acc.length % (rest.length + 1)) c0)
          ((c0 :: rest).getD (pick acc.length % (rest.length + 1)) c0 :: acc)

/-- One ant's construction attempt for a problem, from the start city. -/

def antBuild (P : TSPProblem) (pick : ℕ → ℕ) : Option (List City) :=
  antBuildAux P pick P.cities.length P.start_city [P.start_city]

/-- The successful tours constructed by the colony's ants in one iteration
(ants that dead-end or cannot close the tour are excluded). -/

def acoAnts (P : TSPProblem) (pick : ℕ → ℕ → ℕ) (num_ants : ℕ) :
    List (List City) :=
  (List.range num_ants).filterMap fun a => antBuild P (pick a)

/-- Modelled from the spec: best-tour tracking — the best tour is replaced only
when a strictly better one is found. -/

def betterTour (P : TSPProblem) (b : Option (List City × ℚ)) (t : List City) :
    Option (List City × ℚ) :=
  match b with
  | none => some (t, tourCost P t)
  | some bc => if tourCost P t < bc.2 then some (t, tourCost P t) else some bc

/-- Fold the iteration's successful tours into the best-so-far record. -/

def acoUpdateBest (P : TSPProblem) (best : Option (List City × ℚ))
    (tours : List (List City)) : Option (List City × ℚ) :=
  tours.foldl (betterTour P) best

/-- The convergence-trace entry of one iteration: the best cost so far, when a
tour has been found. -/

def traceEntry (i : ℕ) : Option (List City × ℚ) → List (ℕ × ℚ)
  | some bc => [(i, bc.2)]
  | none => []

/-- Modelled from the spec: the Ant Colony main loop — each iteration lets
every ant construct a tour (randomness injected through `picks`), updates the
best tour found so far, evaporates and deposits pheromone, and records the best
cost so far. -/

def acoIter (P : TSPProblem) (picks : ℕ → ℕ → ℕ → ℕ) (num_ants : ℕ)
    (rho q : ℚ) :
    ℕ → ℕ → (City × City → ℚ) → Option (List City × ℚ) →
      Option (List City × ℚ) × List (ℕ × ℚ)
  | _, 0, _, best => (best, [])
  | i, fuel + 1, tau, best =>
    let tours := acoAnts P (picks i) num_ants
    let best' := acoUpdateBest P best tours
    let tau' := updatePheromone rho q tau (tours.map fun t => (tourEdges t, tourCost P t))
    let rest := acoIter P picks num_ants rho q (i + 1) fuel tau' best'
    (rest.1, traceEntry i best' ++ rest.2)

/-- Modelled from the spec: the `AntColony` solver class of the missing
`algoritimos` package. -/

structure AntColony where
  problem : TSPProblem
  num_ants : ℕ
  iterations : ℕ
  rho : ℚ
  q : ℚ

/-- Modelled from the spec: `AntColony` construction — `num_ants` and
`iterations` must be positive integers, values ≤ 0 fail with
`InvalidConfigurationError`. -/

def AntColony.make (P : TSPProblem) (num_ants iterations : ℤ) (rho q : ℚ) :
    Except TspError AntColony :=
  if num_ants ≤ 0 ∨ iterations ≤ 0 then .error .invalidConfiguration
  else .ok ⟨P, num_ants.toNat, iterations.toNat, rho, q⟩

/-- The full Ant Colony run: all iterations from a uniform initial pheromone
level, starting with no best tour. -/

def acoRun (ac : AntColony) (picks : ℕ → ℕ → ℕ → ℕ)
    (tau0 : City × City → ℚ) : Option (List City × ℚ) × List (ℕ × ℚ) :=
  acoIter ac.problem picks ac.num_ants ac.rho ac.q 0 ac.iterations tau0 none

/-- Modelled from the spec: `AntColony.solve` — returns the best tour found
across all iterations and the convergence trace, or `NoFeasibleTourError` when
no ant produced a valid tour across the entire run. -/

def AntColony.solve (ac : AntColony) (picks : ℕ → ℕ → ℕ → ℕ)
    (tau0 : City × City → ℚ) : Except TspError (List City × List (ℕ × ℚ)) :=
  match acoRun ac picks tau0 with
  | (some bc, tr) => .ok (bc.1, tr)
  | (none, _) => .error .noFeasibleTour

/-! ## The comparison harness (`src/main.py`) -/

/-- Embedded from `src/main.py` (`run_algorithm`, lines 20–33): the result
record — solution tour, recomputed distance, optional convergence data.  The
wall-clock `time` field is not modelled. -/

structure RunResult where
  solution : List City
  distance : ℚ
  convergence : Option (List (ℕ × ℚ))

/-- A solver instance as `run_algorithm` sees it: the `solve()` call outcome
and the optional `convergence_data` attribute (`getattr(solver,
'convergence_data', None)` yields `none` when the attribute is absent). -/

structure SolverLike where
  solve : Except TspError (List City)
  convergence_data : Option (List (ℕ × ℚ))

/-- Embedded from `src/main.py` lines 20–33: `run_algorithm` runs the solver,
recomputes the distance of the returned tour with `problem.path_distance`, and
packages the result; an exception from either step propagates to the caller. -/

def run_algorithm (P : TSPProblem) (solver : SolverLike) :
    Except TspError RunResult :=
  match solver.solve with
  | .error e => .error e
  | .ok sol =>
    match path_distance P sol with
    | .error e => .error e
    | .ok d => .ok ⟨sol, d, solver.convergence_data⟩

/-- Embedded from `src/main.py` lines 78–97: the comparison loop — each
algorithm's run is wrapped in try/except; on failure the error is reported and
the loop continues with the remaining algorithms, so only successful runs are
collected into `results`. -/

def mainLoop : List (String × Except TspError RunResult) →
    List (String × RunResult)
  | [] => []
  | (name, .ok r) :: rest => (name, r) :: mainLoop rest
  | (_, .error _) :: rest => mainLoop rest

/-! ## Claim theorems across all three solvers -/

/-! ## Theorems -/

theorem rotate_one_cons (c : City) (rest : List City) :
    (c :: rest).rotate 1 = rest ++ [c] := by
  simp [List.rotate_cons_succ]

theorem zip_cons_append (c x : City) :
    ∀ (rest : List City) (a : City),
      (a :: rest).zip (rest ++ [x]) =
        (a :: rest).zip rest ++ [((a :: rest).getLast (List.cons_ne_nil a rest), x)]
  | [], a => rfl
  | b :: rest, a => by
    have ih := zip_cons_append c x rest b
    simp only [List.cons_append, List.zip_cons_cons, ih]
    rfl

/-- Decomposition of the cyclic edge list of a nonempty tour: the consecutive
edges followed by the closing edge from the last city back to the first. -/
theorem tourEdges_cons (c : City) (rest : List City) :
    tourEdges (c :: rest) =
      (c :: rest).zip rest ++ [((c :: rest).getLast (List.cons_ne_nil c rest), c)] := by
  rw [tourEdges, rotate_one_cons, zip_cons_append c c rest c]

theorem path_distance_eq_ok {P : TSPProblem} {T : List City}
    (hperm : T.Perm P.cities) (hedge : edgesDefined P T = true) :
    path_distance P T = .ok (tourCost P T) := by
  rw [path_distance, if_pos hperm, if_pos hedge]

theorem isValidTour_iff {P : TSPProblem} {T : List City} :
    isValidTour P T = true ↔ T.Perm P.cities ∧ edgesDefined P T = true := by
  simp [isValidTour]

/-- Claim C2: For every valid (hence nonempty, permuting the city set) tour
`c :: rest` over a problem `P`, `path_distance` returns exactly the sum of the
consecutive-edge distances plus the distance of the closing edge from the last
city of the tour back to the start city `c`. -/
theorem path_distance_consecutive_plus_closing (P : TSPProblem) (c : City)
    (rest : List City) (hvalid : isValidTour P (c :: rest) = true) :
    path_distance P (c :: rest) =
      .ok ((((c :: rest).zip rest).map fun e => w P e.1 e.2).sum
            + w P ((c :: rest).getLast (List.cons_ne_nil c rest)) c) := by
  obtain ⟨hperm, hedge⟩ := isValidTour_iff.mp hvalid
  rw [path_distance_eq_ok hperm hedge]
  rw [tourCost, tourEdges_cons]
  simp

theorem tourEdges_rotate (T : List City) (k : ℕ) :
    tourEdges (T.rotate k) = (tourEdges T).rotate k := by
  have h1 : (T.rotate k).rotate 1 = (T.rotate 1).rotate k := by
    rw [List.rotate_rotate, List.rotate_rotate, Nat.add_comm]
  rw [tourEdges, h1, tourEdges]
  exact (List.zipWith_rotate_distrib Prod.mk T (T.rotate 1) k (by simp)).symm

theorem tourCost_rotate (P : TSPProblem) (T : List City) (k : ℕ) :
    tourCost P (T.rotate k) = tourCost P T := by
  rw [tourCost, tourCost, tourEdges_rotate, List.map_rotate]
  exact (List.rotate_perm _ k).sum_eq

theorem all_eq_of_perm {α : Type} {p : α → Bool} {l₁ l₂ : List α}
    (h : l₁.Perm l₂) : l₁.all p = l₂.all p := by
  rw [Bool.eq_iff_iff]
  simp only [List.all_eq_true]
  exact ⟨fun H x hx => H x (h.mem_iff.mpr hx), fun H x hx => H x (h.mem_iff.mp hx)⟩

theorem edgesDefined_rotate (P : TSPProblem) (T : List City) (k : ℕ) :
    edgesDefined P (T.rotate k) = edgesDefined P T := by
  rw [edgesDefined, edgesDefined, tourEdges_rotate]
  exact all_eq_of_perm (List.rotate_perm _ k)

theorem path_distance_rotate (P : TSPProblem) (T : List City) (k : ℕ) :
    path_distance P (T.rotate k) = path_distance P T := by
  have hiff : (T.rotate k).Perm P.cities ↔ T.Perm P.cities :=
    ⟨fun h => (List.rotate_perm T k).symm.trans h,
     fun h => (List.rotate_perm T k).trans h⟩
  rw [path_distance, path_distance, edgesDefined_rotate, tourCost_rotate]
  by_cases hp : T.Perm P.cities
  · rw [if_pos (hiff.mpr hp), if_pos hp]
  · rw [if_neg (fun h => hp (hiff.mp h)), if_neg hp]

theorem zip_reverse {α β : Type} :
    ∀ (l₁ : List α) (l₂ : List β), l₁.length = l₂.length →
      l₁.reverse.zip l₂.reverse = (l₁.zip l₂).reverse
  | [], [], _ => rfl
  | [], _ :: _, h => by simp at h
  | _ :: _, [], h => by simp at h
  | a :: l₁, b :: l₂, h => by
    have h' : l₁.length = l₂.length := by simpa using h
    simp only [List.reverse_cons]
    rw [List.zip_append (by simp [h']), zip_reverse l₁ l₂ h']
    simp

theorem reverse_rotate_one {T : List City} (hT : T ≠ []) :
    T.reverse.rotate 1 = (T.rotate (T.length - 1)).reverse := by
  have hlen : 0 < T.length := List.length_pos.mpr hT
  rw [List.rotate_reverse]
  rcases Nat.lt_or_ge 1 T.length with h2 | h2
  · rw [Nat.mod_eq_of_lt h2]
  · have h1 : T.length = 1 := Nat.le_antisymm h2 hlen
    have hL : T.length - 1 % T.length = T.length := by rw [h1]
    have hR : T.length - 1 = 0 := by rw [h1]
    rw [hL, hR, List.rotate_length, List.rotate_zero]

/-- The cyclic edge list of a reversed tour is the reversed, endpoint-swapped
cyclic edge list of a rotation of the tour. -/
theorem tourEdges_reverse {T : List City} (hT : T ≠ []) :
    tourEdges T.reverse =
      ((tourEdges (T.rotate (T.length - 1))).map Prod.swap).reverse := by
  have hlen : 0 < T.length := List.length_pos.mpr hT
  have hrot : (T.rotate (T.length - 1)).rotate 1 = T := by
    rw [List.rotate_rotate, Nat.sub_add_cancel hlen, List.rotate_length]
  rw [tourEdges, reverse_rotate_one hT,
    zip_reverse T (T.rotate (T.length - 1)) (by simp), tourEdges, hrot,
    List.zip_swap]

theorem tourCost_reverse {P : TSPProblem} {T : List City} (hsym : symmDist P) :
    tourCost P T.reverse = tourCost P T := by
  rcases eq_or_ne T [] with rfl | hT
  · rfl
  · rw [tourCost, tourEdges_reverse hT, List.map_reverse, List.sum_reverse,
      List.map_map]
    have hmap :
        ((fun e : City × City => w P e.1 e.2) ∘ Prod.swap) =
          fun e : City × City => w P e.1 e.2 := by
      funext e
      simp [Function.comp, w, hsym e.2 e.1]
    rw [hmap, ← tourCost, tourCost_rotate]

theorem edgesDefined_reverse {P : TSPProblem} {T : List City}
    (hsym : symmDist P) : edgesDefined P T.reverse = edgesDefined P T := by
  rcases eq_or_ne T [] with rfl | hT
  · rfl
  · rw [edgesDefined, tourEdges_reverse hT, ← edgesDefined_rotate P T (T.length - 1),
      edgesDefined]
    have h1 := all_eq_of_perm (p := fun e : City × City => (P.dist e.1 e.2).isSome)
      (List.reverse_perm ((tourEdges (T.rotate (T.length - 1))).map Prod.swap))
    rw [h1, List.all_map]
    have hmap :
        ((fun e : City × City => (P.dist e.1 e.2).isSome) ∘ Prod.swap) =
          fun e : City × City => (P.dist e.1 e.2).isSome := by
      funext e
      simp [Function.comp, hsym e.2 e.1]
    rw [hmap]

theorem path_distance_reverse {P : TSPProblem} {T : List City}
    (hsym : symmDist P) : path_distance P T.reverse = path_distance P T := by
  have hiff : T.reverse.Perm P.cities ↔ T.Perm P.cities :=
    ⟨fun h => (List.reverse_perm T).symm.trans h,
     fun h => (List.reverse_perm T).trans h⟩
  rw [path_distance, path_distance, edgesDefined_reverse hsym,
    tourCost_reverse hsym]
  by_cases hp : T.Perm P.cities
  · rw [if_pos (hiff.mpr hp), if_pos hp]
  · rw [if_neg (fun h => hp (hiff.mp h)), if_neg hp]

/-- Claim C8: `path_distance` is invariant under rotation of a valid tour — any
tour with the same cyclic order (i.e. any `T.rotate k`) has the same
`path_distance` — and, when the distance matrix is symmetric, it is also
invariant under reversal of the tour. -/
theorem path_distance_rotation_reversal_invariant (P : TSPProblem)
    (T : List City) (hvalid : isValidTour P T = true) :
    (∀ k : ℕ, path_distance P (T.rotate k) = path_distance P T) ∧
      (symmDist P → path_distance P T.reverse = path_distance P T) := by
  exact ⟨fun k => path_distance_rotate P T k, fun hsym => path_distance_reverse hsym⟩

/-- Witness for C8 on a concrete symmetric 3-city problem: rotation by one and
reversal both preserve `path_distance`. -/
theorem path_distance_rotation_reversal_invariant_witness :
    isValidTour exampleProblem ["A", "B", "C"] = true ∧
      path_distance exampleProblem (["A", "B", "C"].rotate 1) =
        path_distance exampleProblem ["A", "B", "C"] ∧
      path_distance exampleProblem (["A", "B", "C"].reverse) =
        path_distance exampleProblem ["A", "B", "C"] :=
  ⟨by decide,
    (path_distance_rotation_reversal_invariant exampleProblem ["A", "B", "C"]
        (by decide)).1 1,
    (path_distance_rotation_reversal_invariant exampleProblem ["A", "B", "C"]
        (by decide)).2
      (by
        intro a b
        show (if a = b then none else some (1 : ℚ)) =
          (if b = a then none else some 1)
        by_cases h : a = b
        · rw [if_pos h, if_pos h.symm]
        · rw [if_neg h, if_neg (fun hba => h hba.symm)])⟩

/-- Witness for C2 on a concrete 3-city problem. -/
theorem path_distance_consecutive_plus_closing_witness :
    isValidTour exampleProblem ["A", "B", "C"] = true ∧
      path_distance exampleProblem ["A", "B", "C"] =
        .ok (((["A", "B", "C"].zip ["B", "C"]).map
                fun e => w exampleProblem e.1 e.2).sum
              + w exampleProblem
                  (["A", "B", "C"].getLast (List.cons_ne_nil "A" ["B", "C"])) "A") :=
  ⟨by decide,
    path_distance_consecutive_plus_closing exampleProblem "A" ["B", "C"] (by decide)⟩

/-- Claim C7: In every Hill Climbing iteration, a (valid) candidate neighbour
tour becomes the current tour exactly when its cost is strictly less than the
current cost; otherwise the current tour and cost are retained unchanged. -/
theorem hcStep_accepts_iff_strict_improvement (P : TSPProblem)
    (cur : List City × ℚ) (cand : List City)
    (hv : isValidTour P cand = true) :
    (tourCost P cand < cur.2 → hcStep P cur cand = (cand, tourCost P cand)) ∧
      (¬ tourCost P cand < cur.2 → hcStep P cur cand = cur) := by
  constructor
  · intro hlt
    rw [hcStep, if_pos hv, if_pos hlt]
  · intro hge
    rw [hcStep, if_pos hv, if_neg hge]

/-- Witness for C7: a valid candidate of cost 3 against a current cost of 7 is
a strict improvement and is accepted. -/
theorem hcStep_accepts_iff_strict_improvement_witness :
    isValidTour exampleProblem ["A", "C", "B"] = true ∧
      tourCost exampleProblem ["A", "C", "B"] < 7 ∧
      hcStep exampleProblem (["A", "B", "C"], 7) ["A", "C", "B"] =
        (["A", "C", "B"], tourCost exampleProblem ["A", "C", "B"]) :=
  ⟨by decide,
    by norm_num +decide [tourCost, tourEdges, w, exampleProblem, rotate_one_cons],
    (hcStep_accepts_iff_strict_improvement exampleProblem (["A", "B", "C"], 7)
        ["A", "C", "B"] (by decide)).1
      (by norm_num +decide [tourCost, tourEdges, w, exampleProblem, rotate_one_cons])⟩

theorem hcStep_valid {P : TSPProblem} {cur : List City × ℚ} {cand : List City}
    (h : isValidTour P cur.1 = true) :
    isValidTour P (hcStep P cur cand).1 = true := by
  rw [hcStep]
  by_cases hv : isValidTour P cand = true
  · rw [if_pos hv]
    by_cases hlt : tourCost P cand < cur.2
    · rw [if_pos hlt]
      exact hv
    · rw [if_neg hlt]
      exact h
  · rw [if_neg hv]
    exact h

theorem hcStep_cost_le (P : TSPProblem) (cur : List City × ℚ)
    (cand : List City) : (hcStep P cur cand).2 ≤ cur.2 := by
  rw [hcStep]
  by_cases hv : isValidTour P cand = true
  · rw [if_pos hv]
    by_cases hlt : tourCost P cand < cur.2
    · rw [if_pos hlt]
      exact le_of_lt hlt
    · rw [if_neg hlt]
  · rw [if_neg hv]

theorem hcIter_valid (P : TSPProblem) (cand : ℕ → List City) :
    ∀ (fuel i : ℕ) (st : List City × ℚ), isValidTour P st.1 = true →
      isValidTour P (hcIter P cand i fuel st).1.1 = true
  | 0, _, _, h => h
  | fuel + 1, i, st, h =>
    hcIter_valid P cand fuel (i + 1) (hcStep P st (cand i)) (hcStep_valid h)

theorem hcIter_trace_le (P : TSPProblem) (cand : ℕ → List City) :
    ∀ (fuel i : ℕ) (st : List City × ℚ),
      ∀ p ∈ (hcIter P cand i fuel st).2, p.2 ≤ st.2
  | 0, _, _, _, hp => by simp [hcIter] at hp
  | fuel + 1, i, st, p, hp => by
    rw [hcIter] at hp
    rcases List.mem_cons.mp hp with h | h
    · rw [h]
      exact hcStep_cost_le P st (cand i)
    · exact le_trans
        (hcIter_trace_le P cand fuel (i + 1) (hcStep P st (cand i)) p h)
        (hcStep_cost_le P st (cand i))

theorem hcIter_trace_nonIncreasing (P : TSPProblem) (cand : ℕ → List City) :
    ∀ (fuel i : ℕ) (st : List City × ℚ),
      traceNonIncreasing (hcIter P cand i fuel st).2
  | 0, _, _ => List.chain'_nil
  | fuel + 1, i, st => by
    rw [traceNonIncreasing, hcIter]
    refine List.chain'_cons'.mpr ⟨?_, hcIter_trace_nonIncreasing P cand fuel (i + 1) _⟩
    intro y hy
    exact hcIter_trace_le P cand fuel (i + 1) _ y (List.mem_of_mem_head? hy)

theorem hc_solve_valid {hc : HillClimbing} {init : List City}
    {cand : ℕ → List City} {T : List City} {tr : List (ℕ × ℚ)}
    (h : hc.solve init cand = .ok (T, tr)) :
    isValidTour hc.problem T = true := by
  rw [HillClimbing.solve] at h
  by_cases hv : isValidTour hc.problem init = true
  · rw [if_pos hv] at h
    have hT :
        (hcIter hc.problem cand 0 hc.max_iterations
          (init, tourCost hc.problem init)).1.1 = T := by
      have := congrArg (fun x => match x with | .ok p => p.1 | .error _ => []) h
      simpa using this
    rw [← hT]
    exact hcIter_valid hc.problem cand hc.max_iterations 0 _ hv
  · rw [if_neg hv] at h
    exact absurd h (by simp)

theorem hc_solve_trace {hc : HillClimbing} {init : List City}
    {cand : ℕ → List City} {T : List City} {tr : List (ℕ × ℚ)}
    (h : hc.solve init cand = .ok (T, tr)) : traceNonIncreasing tr := by
  rw [HillClimbing.solve] at h
  by_cases hv : isValidTour hc.problem init = true
  · rw [if_pos hv] at h
    have htr :
        (hcIter hc.problem cand 0 hc.max_iterations
          (init, tourCost hc.problem init)).2 = tr := by
      have := congrArg (fun x => match x with | .ok p => p.2 | .error _ => []) h
      simpa using this
    rw [← htr]
    exact hcIter_trace_nonIncreasing hc.problem cand hc.max_iterations 0 _
  · rw [if_neg hv] at h
    exact absurd h (by simp)

theorem bestOf_mem (P : TSPProblem) :
    ∀ (pop : List (List City)) (t : List City), bestOf P t pop ∈ t :: pop
  | [], _ => List.mem_singleton.mpr rfl
  | c :: cs, t => by
    rw [bestOf, List.foldl_cons]
    by_cases h : tourCost P c < tourCost P t
    · rw [if_pos h]
      exact List.mem_cons_of_mem t (bestOf_mem P cs c)
    · rw [if_neg h]
      show bestOf P t cs ∈ t :: c :: cs
      rcases List.mem_cons.mp (bestOf_mem P cs t) with h1 | h1
      · rw [h1]
        exact List.mem_cons_self t (c :: cs)
      · exact List.mem_cons_of_mem t (List.mem_cons_of_mem c h1)

theorem bestOf_le (P : TSPProblem) :
    ∀ (pop : List (List City)) (t : List City), ∀ x ∈ t :: pop,
      tourCost P (bestOf P t pop) ≤ tourCost P x
  | [], t, x, hx => by
    rw [List.mem_singleton.mp hx]
    exact le_refl _
  | c :: cs, t, x, hx => by
    rw [bestOf, List.foldl_cons]
    by_cases h : tourCost P c < tourCost P t
    · rw [if_pos h]
      show tourCost P (bestOf P c cs) ≤ tourCost P x
      rcases List.mem_cons.mp hx with h1 | h1
      · rw [h1]
        exact le_trans (bestOf_le P cs c c (List.mem_cons_self c cs))
          (le_of_lt h)
      · exact bestOf_le P cs c x h1
    · rw [if_neg h]
      show tourCost P (bestOf P t cs) ≤ tourCost P x
      rcases List.mem_cons.mp hx with h1 | h1
      · rw [h1]
        exact bestOf_le P cs t t (List.mem_cons_self t cs)
      · rcases List.mem_cons.mp h1 with h2 | h2
        · rw [h2]
          exact le_trans (bestOf_le P cs t t (List.mem_cons_self t cs))
            (le_of_not_lt h)
        · exact bestOf_le P cs t x (List.mem_cons_of_mem t h2)

theorem bestTour_mem (P : TSPProblem) {pop : List (List City)}
    (h : pop ≠ []) : bestTour P pop ∈ pop := by
  cases pop with
  | nil => exact absurd rfl h
  | cons t ts => exact bestOf_mem P ts t

theorem bestTour_le (P : TSPProblem) {pop : List (List City)} :
    ∀ x ∈ pop, tourCost P (bestTour P pop) ≤ tourCost P x := by
  cases pop with
  | nil => intro x hx; exact absurd hx (List.not_mem_nil x)
  | cons t ts => exact bestOf_le P ts t

theorem bestTour_nextGen_le (P : TSPProblem) (pop : List (List City))
    (cands : List (List City × ℕ)) :
    tourCost P (bestTour P (nextGen P pop cands)) ≤
      tourCost P (bestTour P pop) :=
  bestTour_le P (bestTour P pop)
    (List.mem_cons_self (bestTour P pop) (cands.map (makeChild P pop)))

/-- Claim C4: In the Genetic Algorithm, the best individual of the current
generation survives unmodified into the next population (it is a member of
`nextGen`), and consequently the best cost of the next population is at most
the best cost of the current one. -/
theorem ga_elitism (P : TSPProblem) (pop : List (List City))
    (cands : List (List City × ℕ)) :
    bestTour P pop ∈ nextGen P pop cands ∧
      tourCost P (bestTour P (nextGen P pop cands)) ≤
        tourCost P (bestTour P pop) :=
  ⟨List.mem_cons_self _ _, bestTour_nextGen_le P pop cands⟩

theorem makeChild_valid {P : TSPProblem} {pop : List (List City)}
    (hpop : pop ≠ []) (hall : ∀ t ∈ pop, isValidTour P t = true)
    (c : List City × ℕ) : isValidTour P (makeChild P pop c) = true := by
  rw [makeChild]
  by_cases hv : isValidTour P c.1 = true
  · rw [if_pos hv]
    exact hv
  · rw [if_neg hv, List.getD_eq_getElem?_getD]
    rcases h : pop[c.2]? with _ | x
    · rw [Option.getD_none]
      exact hall _ (bestTour_mem P hpop)
    · rw [Option.getD_some]
      exact hall x (List.getElem?_mem h)

theorem nextGen_valid {P : TSPProblem} {pop : List (List City)}
    (hpop : pop ≠ []) (hall : ∀ t ∈ pop, isValidTour P t = true)
    (cands : List (List City × ℕ)) :
    nextGen P pop cands ≠ [] ∧
      ∀ t ∈ nextGen P pop cands, isValidTour P t = true := by
  refine ⟨List.cons_ne_nil _ _, ?_⟩
  intro t ht
  rcases List.mem_cons.mp ht with h | h
  · rw [h]
    exact hall _ (bestTour_mem P hpop)
  · rcases List.mem_map.mp h with ⟨c, _, hc⟩
    rw [← hc]
    exact makeChild_valid hpop hall c

theorem gaIter_valid (P : TSPProblem) (cands : ℕ → List (List City × ℕ)) :
    ∀ (fuel g : ℕ) (pop : List (List City)), pop ≠ [] →
      (∀ t ∈ pop, isValidTour P t = true) →
      (gaIter P cands g fuel pop).1 ≠ [] ∧
        ∀ t ∈ (gaIter P cands g fuel pop).1, isValidTour P t = true
  | 0, _, _, hne, hall => ⟨hne, hall⟩
  | fuel + 1, g, pop, hne, hall => by
    obtain ⟨hne', hall'⟩ := nextGen_valid hne hall (cands g)
    exact gaIter_valid P cands fuel (g + 1) _ hne' hall'

theorem gaIter_trace_le (P : TSPProblem) (cands : ℕ → List (List City × ℕ)) :
    ∀ (fuel g : ℕ) (pop : List (List City)),
      ∀ p ∈ (gaIter P cands g fuel pop).2,
        p.2 ≤ tourCost P (bestTour P pop)
  | 0, _, _, _, hp => by simp [gaIter] at hp
  | fuel + 1, g, pop, p, hp => by
    rw [gaIter] at hp
    rcases List.mem_cons.mp hp with h | h
    · rw [h]
      exact bestTour_nextGen_le P pop (cands g)
    · exact le_trans (gaIter_trace_le P cands fuel (g + 1) _ p h)
        (bestTour_nextGen_le P pop (cands g))

theorem gaIter_trace_nonIncreasing (P : TSPProblem)
    (cands : ℕ → List (List City × ℕ)) :
    ∀ (fuel g : ℕ) (pop : List (List City)),
      traceNonIncreasing (gaIter P cands g fuel pop).2
  | 0, _, _ => List.chain'_nil
  | fuel + 1, g, pop => by
    rw [traceNonIncreasing, gaIter]
    refine List.chain'_cons'.mpr
      ⟨?_, gaIter_trace_nonIncreasing P cands fuel (g + 1) _⟩
    intro y hy
    exact gaIter_trace_le P cands fuel (g + 1) _ y (List.mem_of_mem_head? hy)

theorem ga_solve_valid {ga : GeneticAlgorithm} {initPop : List (List City)}
    {cands : ℕ → List (List City × ℕ)} {T : List City} {tr : List (ℕ × ℚ)}
    (h : ga.solve initPop cands = .ok (T, tr)) :
    isValidTour ga.problem T = true := by
  rw [GeneticAlgorithm.solve] at h
  by_cases hc : initPop ≠ [] ∧ (initPop.all fun t => isValidTour ga.problem t) = true
  · rw [if_pos hc] at h
    have hT :
        bestTour ga.problem (gaIter ga.problem cands 0 ga.generations initPop).1 = T := by
      have := congrArg (fun x => match x with | .ok p => p.1 | .error _ => []) h
      simpa using this
    obtain ⟨hne, hall⟩ := gaIter_valid ga.problem cands ga.generations 0 initPop
      hc.1 (fun t ht => List.all_eq_true.mp hc.2 t ht)
    rw [← hT]
    exact hall _ (bestTour_mem ga.problem hne)
  · rw [if_neg hc] at h
    exact absurd h (by simp)

theorem ga_solve_trace {ga : GeneticAlgorithm} {initPop : List (List City)}
    {cands : ℕ → List (List City × ℕ)} {T : List City} {tr : List (ℕ × ℚ)}
    (h : ga.solve initPop cands = .ok (T, tr)) : traceNonIncreasing tr := by
  rw [GeneticAlgorithm.solve] at h
  by_cases hc : initPop ≠ [] ∧ (initPop.all fun t => isValidTour ga.problem t) = true
  · rw [if_pos hc] at h
    have htr : (gaIter ga.problem cands 0 ga.generations initPop).2 = tr := by
      have := congrArg (fun x => match x with | .ok p => p.2 | .error _ => []) h
      simpa using this
    rw [← htr]
    exact gaIter_trace_nonIncreasing ga.problem cands ga.generations 0 initPop
  · rw [if_neg hc] at h
    exact absurd h (by simp)

theorem depositFold_eq (q : ℚ) :
    ∀ (tours : List (List (City × City) × ℚ)) (m : City × City → ℚ)
      (e : City × City),
      tours.foldl (fun m t => depositAnt q t m) m e = m e + totalDeposit q tours e
  | [], m, e => by simp [totalDeposit]
  | t :: ts, m, e => by
    rw [List.foldl_cons, depositFold_eq q ts _ e]
    simp only [totalDeposit, List.map_cons, List.sum_cons, depositAnt]
    by_cases h : e ∈ t.1
    · rw [if_pos h, if_pos h]
      ring
    · rw [if_neg h, if_neg h]
      ring

/-- Claim C6: In each Ant Colony iteration the updated pheromone of every edge is
`current * (1 - rho) + deposit`, where the deposit sums `Q / tour_length` over
the successful ants that used the edge; consequently, for `rho ∈ (0,1)`, an
edge used by no successful ant ends the iteration with strictly less (positive)
pheromone than it started with. -/
theorem aco_pheromone_update (rho q : ℚ) (tau : City × City → ℚ)
    (tours : List (List (City × City) × ℚ)) (e : City × City) :
    updatePheromone rho q tau tours e =
        tau e * (1 - rho) + totalDeposit q tours e ∧
      ((∀ t ∈ tours, e ∉ t.1) → 0 < rho → rho < 1 → 0 < tau e →
        updatePheromone rho q tau tours e < tau e) := by
  have hbase : updatePheromone rho q tau tours e =
      tau e * (1 - rho) + totalDeposit q tours e :=
    depositFold_eq q tours (evaporate rho tau) e
  refine ⟨hbase, fun hunused h0 h1 hpos => ?_⟩
  have hmap : (tours.map fun t => if e ∈ t.1 then q / t.2 else 0) =
      tours.map fun _ => (0 : ℚ) := by
    apply List.map_congr_left
    intro t ht
    rw [if_neg (hunused t ht)]
  have hzero : totalDeposit q tours e = 0 := by
    rw [totalDeposit, hmap]
    simp
  rw [hbase, hzero, add_zero]
  calc tau e * (1 - rho) < tau e * 1 := by
        apply mul_lt_mul_of_pos_left _ hpos
        linarith
    _ = tau e := mul_one _

/-- Witness for C6 with one successful ant and an edge it did not use: the
hypotheses hold concretely and the unused edge strictly loses pheromone. -/
theorem aco_pheromone_update_witness :
    ("B", "C") ∉ [("A", "B")] ∧
      (0 : ℚ) < 1/2 ∧ (1 : ℚ)/2 < 1 ∧ (0 : ℚ) < 1 ∧
      (updatePheromone (1/2) 1 (fun _ => 1) [([("A", "B")], 3)] ("B", "C") =
          (1 : ℚ) * (1 - 1/2) + totalDeposit 1 [([("A", "B")], 3)] ("B", "C")) ∧
      updatePheromone (1/2) 1 (fun _ => 1) [([("A", "B")], 3)] ("B", "C") < 1 :=
  ⟨by decide, by norm_num, by norm_num, by norm_num,
    (aco_pheromone_update (1/2) 1 (fun _ => 1) [([("A", "B")], 3)] ("B", "C")).1,
    (aco_pheromone_update (1/2) 1 (fun _ => 1) [([("A", "B")], 3)] ("B", "C")).2
      (by decide) (by norm_num) (by norm_num) (by norm_num)⟩

theorem forall_zip_tail_iff_chain {p : City → City → Prop} :
    ∀ l : List City, (∀ e ∈ l.zip l.tail, p e.1 e.2) ↔ List.Chain' p l
  | [] => by simp
  | [a] => by simp
  | a :: b :: l => by
    rw [List.chain'_cons]
    have ih := forall_zip_tail_iff_chain (p := p) (b :: l)
    simp only [List.tail_cons, List.zip_cons_cons] at ih ⊢
    constructor
    · intro H
      exact ⟨H (a, b) (List.mem_cons_self _ _),
        ih.mp fun e he => H e (List.mem_cons_of_mem _ he)⟩
    · rintro ⟨hab, hc⟩ e he
      rcases List.mem_cons.mp he with h1 | h1
      · rw [h1]
        exact hab
      · exact ih.mpr hc e h1

theorem edgesDefined_cons_iff (P : TSPProblem) (c : City) (rest : List City) :
    edgesDefined P (c :: rest) = true ↔
      List.Chain' (fun a b => (P.dist a b).isSome = true) (c :: rest) ∧
        (P.dist ((c :: rest).getLast (List.cons_ne_nil c rest)) c).isSome = true := by
  rw [edgesDefined, List.all_eq_true, tourEdges_cons]
  constructor
  · intro H
    constructor
    · refine (forall_zip_tail_iff_chain (c :: rest)).mp ?_
      intro e he
      exact H e (List.mem_append_left _ (by simpa using he))
    · exact H (_, c) (List.mem_append_right _ (List.mem_singleton.mpr rfl))
  · rintro ⟨hchain, hclose⟩ e he
    rcases List.mem_append.mp he with h1 | h1
    · exact (forall_zip_tail_iff_chain (c :: rest)).mpr hchain e (by simpa using h1)
    · rw [List.mem_singleton.mp h1]
      exact hclose

theorem getLast?_cons_of_ne_nil {α : Type} (a : α) {l : List α} (h : l ≠ []) :
    (a :: l).getLast? = l.getLast? := by
  rcases l with _ | ⟨b, t⟩
  · exact absurd rfl h
  · exact List.getLast?_cons_cons

theorem getD_mem {α : Type} (l : List α) (i : ℕ) (d : α) (hd : d ∈ l) :
    l.getD i d ∈ l := by
  rw [List.getD_eq_getElem?_getD]
  rcases h : l[i]? with _ | x
  · rw [Option.getD_none]
    exact hd
  · rw [Option.getD_some]
    exact List.getElem?_mem h

theorem antChoices_spec {P : TSPProblem} {visited : List City} {cur c : City}
    (h : c ∈ antChoices P visited cur) :
    c ∈ P.cities ∧ c ∉ visited ∧ (P.dist cur c).isSome = true := by
  rw [antChoices] at h
  have hmem := List.mem_filter.mp h
  have hb := hmem.2
  simp only [Bool.and_eq_true, Bool.not_eq_true'] at hb
  refine ⟨hmem.1, ?_, hb.2⟩
  simpa using hb.1

/-- A completed ant walk (all cities visited, closing edge present) yields a
valid tour. -/
theorem antAccept_valid (P : TSPProblem) (hnodup : P.cities.Nodup)
    {cur : City} {acc : List City}
    (hhead : acc.head? = some cur)
    (hnd : acc.Nodup) (hsub : ∀ c ∈ acc, c ∈ P.cities)
    (hchain : List.Chain' (fun x y => (P.dist y x).isSome = true) acc)
    (hlast : acc.getLast? = some P.start_city)
    (hlen : acc.length = P.cities.length)
    (hclose : (P.dist cur P.start_city).isSome = true) :
    isValidTour P acc.reverse = true := by
  have hperm : acc.Perm P.cities :=
    (hnd.subperm fun c hc => hsub c hc).perm_of_length_le (le_of_eq hlen.symm)
  rcases hrev : acc.reverse with _ | ⟨h0, t0⟩
  · exact absurd (List.reverse_eq_nil_iff.mp hrev) (by
      intro hnil
      rw [hnil] at hhead
      exact absurd hhead (by simp))
  · rw [isValidTour_iff]
    constructor
    · rw [← hrev]
      exact (List.reverse_perm acc).trans hperm
    · rw [edgesDefined_cons_iff]
      have hh0 : h0 = P.start_city := by
        have h1 := List.head?_reverse acc
        rw [hrev, hlast] at h1
        simpa using h1
      have hlast0 : (h0 :: t0).getLast (List.cons_ne_nil h0 t0) = cur := by
        have h1 := List.getLast?_reverse acc
        rw [hrev, hhead] at h1
        have h2 := List.getLast?_eq_getLast (h0 :: t0) (List.cons_ne_nil h0 t0)
        rw [h1] at h2
        exact (Option.some.inj h2).symm
      constructor
      · rw [← hrev]
        refine List.chain'_reverse.mpr ?_
        exact hchain
      · rw [hlast0, hh0]
        exact hclose

theorem antBuildAux_valid (P : TSPProblem) (pick : ℕ → ℕ)
    (hnodup : P.cities.Nodup) :
    ∀ (fuel : ℕ) (cur : City) (acc : List City) (T : List City),
      acc.head? = some cur → acc.Nodup → (∀ c ∈ acc, c ∈ P.cities) →
      List.Chain' (fun x y => (P.dist y x).isSome = true) acc →
      acc.getLast? = some P.start_city →
      antBuildAux P pick fuel cur acc = some T →
      isValidTour P T = true
  | 0, cur, acc, T, hhead, hnd, hsub, hchain, hlast, h => by
    rw [antBuildAux] at h
    by_cases hdone : acc.length = P.cities.length ∧
        (P.dist cur P.start_city).isSome = true
    · rw [if_pos hdone] at h
      rw [← Option.some.inj h]
      exact antAccept_valid P hnodup hhead hnd hsub hchain hlast hdone.1 hdone.2
    · rw [if_neg hdone] at h
      exact absurd h (by simp)
  | fuel + 1, cur, acc, T, hhead, hnd, hsub, hchain, hlast, h => by
    rw [antBuildAux] at h
    by_cases hdone : acc.length = P.cities.length ∧
        (P.dist cur P.start_city).isSome = true
    · rw [if_pos hdone] at h
      rw [← Option.some.inj h]
      exact antAccept_valid P hnodup hhead hnd hsub hchain hlast hdone.1 hdone.2
    · rw [if_neg hdone] at h
      by_cases hlen : acc.length = P.cities.length
      · rw [if_pos hlen] at h
        exact absurd h (by simp)
      · rw [if_neg hlen] at h
        rcases hch : antChoices P acc cur with _ | ⟨c0, rest⟩
        · rw [hch] at h
          exact absurd h (by simp)
        · rw [hch] at h
          obtain ⟨nxt, hnxtmem, h⟩ : ∃ nxt, nxt ∈ antChoices P acc cur ∧
              antBuildAux P pick fuel nxt (nxt :: acc) = some T := by
            refine ⟨_, ?_, h⟩
            rw [hch]
            exact getD_mem _ _ _ (List.mem_cons_self c0 rest)
          obtain ⟨hcity, hnotvis, hedge⟩ := antChoices_spec hnxtmem
          have hne : acc ≠ [] := by
            intro hnil
            rw [hnil] at hhead
            exact absurd hhead (by simp)
          refine antBuildAux_valid P pick hnodup fuel nxt (nxt :: acc) T rfl
            (List.nodup_cons.mpr ⟨hnotvis, hnd⟩)
            (fun c hc => ?_) ?_ ?_ h
          · rcases List.mem_cons.mp hc with h1 | h1
            · rw [h1]
              exact hcity
            · exact hsub c h1
          · refine List.chain'_cons'.mpr ⟨?_, hchain⟩
            intro y hy
            have hycur : y = cur := by
              rw [hhead] at hy
              exact (by simpa using hy : cur = y).symm
            rw [hycur]
            exact hedge
          · rw [getLast?_cons_of_ne_nil nxt hne]
            exact hlast

/-- A successful ant construction yields a valid tour (for a well-formed
problem: distinct cities, start city among them). -/
theorem antBuild_valid {P : TSPProblem} {pick : ℕ → ℕ}
    (hnodup : P.cities.Nodup) (hstart : P.start_city ∈ P.cities)
    {T : List City} (h : antBuild P pick = some T) : isValidTour P T = true := by
  refine antBuildAux_valid P pick hnodup P.cities.length P.start_city
    [P.start_city] T rfl (List.nodup_singleton _) ?_ ?_ rfl h
  · intro c hc
    rw [List.mem_singleton.mp hc]
    exact hstart
  · exact List.chain'_singleton _

theorem acoUpdateBest_some_le (P : TSPProblem) :
    ∀ (tours : List (List City)) (bc : List City × ℚ),
      ∃ bc', acoUpdateBest P (some bc) tours = some bc' ∧ bc'.2 ≤ bc.2
  | [], bc => ⟨bc, rfl, le_refl _⟩
  | t :: ts, bc => by
    rw [acoUpdateBest, List.foldl_cons]
    by_cases h : tourCost P t < bc.2
    · have hb : betterTour P (some bc) t = some (t, tourCost P t) := by
        simp only [betterTour]
        rw [if_pos h]
      rw [hb]
      obtain ⟨bc', h1, h2⟩ := acoUpdateBest_some_le P ts (t, tourCost P t)
      exact ⟨bc', h1, le_trans h2 (le_of_lt h)⟩
    · have hb : betterTour P (some bc) t = some bc := by
        simp only [betterTour]
        rw [if_neg h]
      rw [hb]
      exact acoUpdateBest_some_le P ts bc

theorem acoUpdateBest_valid (P : TSPProblem) :
    ∀ (tours : List (List City)) (best : Option (List City × ℚ)),
      (∀ bc, best = some bc → isValidTour P bc.1 = true) →
      (∀ t ∈ tours, isValidTour P t = true) →
      ∀ bc', acoUpdateBest P best tours = some bc' → isValidTour P bc'.1 = true
  | [], _, hbest, _, bc', h => hbest bc' h
  | t :: ts, best, hbest, htours, bc', h => by
    rw [acoUpdateBest, List.foldl_cons] at h
    refine acoUpdateBest_valid P ts (betterTour P best t) ?_
      (fun x hx => htours x (List.mem_cons_of_mem t hx)) bc' h
    intro bc hbc
    rcases best with _ | b0
    · simp only [betterTour] at hbc
      rw [← Option.some.inj hbc]
      exact htours t (List.mem_cons_self t ts)
    · simp only [betterTour] at hbc
      by_cases hlt : tourCost P t < b0.2
      · rw [if_pos hlt] at hbc
        rw [← Option.some.inj hbc]
        exact htours t (List.mem_cons_self t ts)
      · rw [if_neg hlt] at hbc
        rw [← Option.some.inj hbc]
        exact hbest b0 rfl

theorem acoAnts_valid {P : TSPProblem} (hnodup : P.cities.Nodup)
    (hstart : P.start_city ∈ P.cities) (pick : ℕ → ℕ → ℕ) (num_ants : ℕ) :
    ∀ t ∈ acoAnts P pick num_ants, isValidTour P t = true := by
  intro t ht
  rw [acoAnts] at ht
  obtain ⟨a, _, ha⟩ := List.mem_filterMap.mp ht
  exact antBuild_valid hnodup hstart ha

theorem acoIter_best_valid (P : TSPProblem) (picks : ℕ → ℕ → ℕ → ℕ)
    (num_ants : ℕ) (rho q : ℚ) (hnodup : P.cities.Nodup)
    (hstart : P.start_city ∈ P.cities) :
    ∀ (fuel i : ℕ) (tau : City × City → ℚ) (best : Option (List City × ℚ)),
      (∀ bc, best = some bc → isValidTour P bc.1 = true) →
      ∀ bc', (acoIter P picks num_ants rho q i fuel tau best).1 = some bc' →
        isValidTour P bc'.1 = true
  | 0, _, _, _, hbest, bc', h => hbest bc' h
  | fuel + 1, i, tau, best, hbest, bc', h => by
    simp only [acoIter] at h
    refine acoIter_best_valid P picks num_ants rho q hnodup hstart fuel (i + 1)
      _ _ ?_ bc' h
    intro bc hbc
    exact acoUpdateBest_valid P _ best hbest
      (acoAnts_valid hnodup hstart (picks i) num_ants) bc hbc

theorem acoIter_trace_le (P : TSPProblem) (picks : ℕ → ℕ → ℕ → ℕ)
    (num_ants : ℕ) (rho q : ℚ) :
    ∀ (fuel i : ℕ) (tau : City × City → ℚ) (bc : List City × ℚ),
      ∀ p ∈ (acoIter P picks num_ants rho q i fuel tau (some bc)).2, p.2 ≤ bc.2
  | 0, _, _, _, p, hp => by simp [acoIter] at hp
  | fuel + 1, i, tau, bc, p, hp => by
    simp only [acoIter] at hp
    obtain ⟨bc', hbc', hle⟩ :=
      acoUpdateBest_some_le P (acoAnts P (picks i) num_ants) bc
    rw [hbc'] at hp
    simp only [traceEntry, List.singleton_append] at hp
    rcases List.mem_cons.mp hp with h1 | h1
    · rw [h1]
      exact hle
    · exact le_trans
        (acoIter_trace_le P picks num_ants rho q fuel (i + 1) _ bc' p h1) hle

theorem acoIter_trace_nonIncreasing (P : TSPProblem) (picks : ℕ → ℕ → ℕ → ℕ)
    (num_ants : ℕ) (rho q : ℚ) :
    ∀ (fuel i : ℕ) (tau : City × City → ℚ) (best : Option (List City × ℚ)),
      traceNonIncreasing (acoIter P picks num_ants rho q i fuel tau best).2
  | 0, _, _, _ => List.chain'_nil
  | fuel + 1, i, tau, best => by
    simp only [traceNonIncreasing, acoIter]
    rcases hbb : acoUpdateBest P best (acoAnts P (picks i) num_ants) with _ | bc'
    · simp only [traceEntry, List.nil_append]
      exact acoIter_trace_nonIncreasing P picks num_ants rho q fuel (i + 1) _ _
    · simp only [traceEntry, List.singleton_append]
      refine List.chain'_cons'.mpr
        ⟨?_, acoIter_trace_nonIncreasing P picks num_ants rho q fuel (i + 1) _ _⟩
      intro y hy
      exact acoIter_trace_le P picks num_ants rho q fuel (i + 1) _ bc' y
        (List.mem_of_mem_head? hy)

theorem aco_solve_valid {ac : AntColony} {picks : ℕ → ℕ → ℕ → ℕ}
    {tau0 : City × City → ℚ} {T : List City} {tr : List (ℕ × ℚ)}
    (hnodup : ac.problem.cities.Nodup)
    (hstart : ac.problem.start_city ∈ ac.problem.cities)
    (h : ac.solve picks tau0 = .ok (T, tr)) :
    isValidTour ac.problem T = true := by
  rcases hr : acoRun ac picks tau0 with ⟨b, tr'⟩
  rw [AntColony.solve, hr] at h
  rcases b with _ | bc
  · exact absurd h (by simp)
  · have hT : bc.1 = T := by
      have := congrArg (fun x => match x with | .ok p => p.1 | .error _ => []) h
      simpa using this
    rw [← hT]
    refine acoIter_best_valid ac.problem picks ac.num_ants ac.rho ac.q hnodup
      hstart ac.iterations 0 tau0 none (fun bc0 hbc0 => by exact absurd hbc0 (by simp))
      bc ?_
    have : (acoRun ac picks tau0).1 = some bc := by rw [hr]
    exact this

theorem aco_solve_trace {ac : AntColony} {picks : ℕ → ℕ → ℕ → ℕ}
    {tau0 : City × City → ℚ} {T : List City} {tr : List (ℕ × ℚ)}
    (h : ac.solve picks tau0 = .ok (T, tr)) : traceNonIncreasing tr := by
  rcases hr : acoRun ac picks tau0 with ⟨b, tr'⟩
  rw [AntColony.solve, hr] at h
  rcases b with _ | bc
  · exact absurd h (by simp)
  · have htr : tr' = tr := by
      have := congrArg (fun x => match x with | .ok p => p.2 | .error _ => []) h
      simpa using this
    rw [← htr]
    have : (acoRun ac picks tau0).2 = tr' := by rw [hr]
    rw [← this]
    exact acoIter_trace_nonIncreasing ac.problem picks ac.num_ants ac.rho ac.q
      ac.iterations 0 tau0 none

/-- Claim C5: One algorithm's failure never aborts the overall comparison loop:
a failing entry contributes nothing and the remaining solvers are processed
exactly as they would have been. -/
theorem mainLoop_continues_after_failure
    (pre post : List (String × Except TspError RunResult)) (name : String)
    (e : TspError) :
    mainLoop (pre ++ (name, .error e) :: post) = mainLoop pre ++ mainLoop post := by
  induction pre with
  | nil => rw [List.nil_append, mainLoop, mainLoop, List.nil_append]
  | cons hd tl ih =>
    rcases hd with ⟨n, r⟩
    rcases r with err | v
    · rw [List.cons_append, mainLoop, ih, mainLoop]
    · rw [List.cons_append, mainLoop, ih, mainLoop, List.cons_append]

/-- Claim C10: When `run_algorithm` completes without an exception, the
`distance` field of its result equals `problem.path_distance` recomputed on the
returned solution tour, and the `convergence` field is `none` whenever the
solver exposes no convergence data. -/
theorem run_algorithm_recomputes_distance (P : TSPProblem)
    (solver : SolverLike) (r : RunResult)
    (h : run_algorithm P solver = .ok r) :
    path_distance P r.solution = .ok r.distance ∧
      (solver.convergence_data = none → r.convergence = none) := by
  rw [run_algorithm] at h
  rcases hs : solver.solve with e | sol
  · rw [hs] at h
    exact absurd h (by simp)
  · rw [hs] at h
    dsimp only at h
    rcases hd : path_distance P sol with e | d
    · rw [hd] at h
      exact absurd h (by simp)
    · rw [hd] at h
      dsimp only at h
      rw [← Option.some.inj (congrArg Except.toOption h)]
      exact ⟨hd, fun hc => by rw [hc]⟩

/-- Witness for C10: a solver returning a fixed tour with no convergence
attribute. -/
theorem run_algorithm_recomputes_distance_witness :
    path_distance exampleProblem
        (⟨["A", "B", "C"], 3, none⟩ : RunResult).solution =
      .ok (⟨["A", "B", "C"], 3, none⟩ : RunResult).distance ∧
      ((⟨.ok ["A", "B", "C"], none⟩ : SolverLike).convergence_data = none →
        (⟨["A", "B", "C"], 3, none⟩ : RunResult).convergence = none) :=
  run_algorithm_recomputes_distance exampleProblem ⟨.ok ["A", "B", "C"], none⟩
    ⟨["A", "B", "C"], 3, none⟩ (by
      norm_num +decide [run_algorithm, path_distance, edgesDefined, tourEdges,
        tourCost, w, exampleProblem, rotate_one_cons, Except.bind, pure])

/-- Claim C9: Constructing any solver with a non-positive configuration value —
`max_iterations` for Hill Climbing, `population_size`/`generations` for the
Genetic Algorithm, `num_ants`/`iterations` for the Ant Colony — fails with
`InvalidConfigurationError`. -/
theorem nonpositive_configuration_rejected (P : TSPProblem)
    (m ps gs na its : ℤ) (rho q : ℚ) :
    (m ≤ 0 → HillClimbing.make P m = .error .invalidConfiguration) ∧
      (ps ≤ 0 ∨ gs ≤ 0 →
        GeneticAlgorithm.make P ps gs = .error .invalidConfiguration) ∧
      (na ≤ 0 ∨ its ≤ 0 →
        AntColony.make P na its rho q = .error .invalidConfiguration) := by
  refine ⟨fun h => ?_, fun h => ?_, fun h => ?_⟩
  · rw [HillClimbing.make, if_pos h]
  · rw [GeneticAlgorithm.make, if_pos h]
  · rw [AntColony.make, if_pos h]

/-- Witness for C9 at zero and negative configuration values. -/
theorem nonpositive_configuration_rejected_witness :
    HillClimbing.make exampleProblem 0 = .error .invalidConfiguration ∧
      GeneticAlgorithm.make exampleProblem 0 5 = .error .invalidConfiguration ∧
      AntColony.make exampleProblem (-1) 3 (1/2) 1 = .error .invalidConfiguration :=
  ⟨(nonpositive_configuration_rejected exampleProblem 0 0 5 (-1) 3 (1/2) 1).1
      (by decide),
    (nonpositive_configuration_rejected exampleProblem 0 0 5 (-1) 3 (1/2) 1).2.1
      (Or.inl (by decide)),
    (nonpositive_configuration_rejected exampleProblem 0 0 5 (-1) 3 (1/2) 1).2.2
      (Or.inl (by decide))⟩

/-- A concrete Hill Climbing run on `exampleProblem` (2 iterations, a
non-improving candidate). -/
theorem exampleRun_hc :
    HillClimbing.solve ⟨exampleProblem, 2⟩ ["A", "B", "C"]
        (fun _ => ["A", "C", "B"]) = .ok (["A", "B", "C"], [(0, 3), (1, 3)]) := by
  norm_num +decide [HillClimbing.solve, hcIter, hcStep, isValidTour,
    edgesDefined, tourEdges, tourCost, w, exampleProblem, rotate_one_cons]

/-- A concrete Genetic Algorithm run on `exampleProblem` (population 1, one
generation, no offspring). -/
theorem exampleRun_ga :
    GeneticAlgorithm.solve ⟨exampleProblem, 1, 1⟩ [["A", "B", "C"]]
        (fun _ => []) = .ok (["A", "B", "C"], [(0, 3)]) := by
  norm_num +decide [GeneticAlgorithm.solve, gaIter, nextGen, bestTour, bestOf,
    makeChild, isValidTour, edgesDefined, tourEdges, tourCost, w,
    exampleProblem, rotate_one_cons]

/-- A concrete Ant Colony run on `exampleProblem` (one ant, one iteration). -/
theorem exampleRun_aco :
    AntColony.solve ⟨exampleProblem, 1, 1, 1/2, 1⟩ (fun _ _ _ => 0)
        (fun _ => 1) = .ok (["A", "B", "C"], [(0, 3)]) := by
  norm_num +decide [AntColony.solve, acoRun, acoIter, acoAnts, antBuild,
    antBuildAux, antChoices, acoUpdateBest, betterTour, traceEntry,
    updatePheromone, evaporate, depositAnt, isValidTour, edgesDefined,
    tourEdges, tourCost, w, exampleProblem, rotate_one_cons, List.range_succ,
    List.filterMap_cons, List.filterMap_nil, List.foldl_cons, List.foldl_nil]

/-- Claim C1: Every tour returned by any of the three solvers is a permutation
of all cities of the problem using only edges present in the distance matrix
(for the Ant Colony on a well-formed problem: distinct cities, start city
among them). -/
theorem solvers_return_valid_tours :
    (∀ (hc : HillClimbing) (init : List City) (cand : ℕ → List City)
        (T : List City) (tr : List (ℕ × ℚ)),
      hc.solve init cand = .ok (T, tr) → isValidTour hc.problem T = true) ∧
      (∀ (ga : GeneticAlgorithm) (initPop : List (List City))
          (cands : ℕ → List (List City × ℕ)) (T : List City)
          (tr : List (ℕ × ℚ)),
        ga.solve initPop cands = .ok (T, tr) →
          isValidTour ga.problem T = true) ∧
      (∀ (ac : AntColony) (picks : ℕ → ℕ → ℕ → ℕ) (tau0 : City × City → ℚ)
          (T : List City) (tr : List (ℕ × ℚ)),
        ac.problem.cities.Nodup → ac.problem.start_city ∈ ac.problem.cities →
        ac.solve picks tau0 = .ok (T, tr) → isValidTour ac.problem T = true) :=
  ⟨fun _ _ _ _ _ h => hc_solve_valid h,
    fun _ _ _ _ _ h => ga_solve_valid h,
    fun _ _ _ _ _ h1 h2 h3 => aco_solve_valid h1 h2 h3⟩

/-- Witness for C1: all three solvers return valid tours on concrete runs over
`exampleProblem`. -/
theorem solvers_return_valid_tours_witness :
    isValidTour (⟨exampleProblem, 2⟩ : HillClimbing).problem ["A", "B", "C"] = true ∧
      isValidTour (⟨exampleProblem, 1, 1⟩ : GeneticAlgorithm).problem
          ["A", "B", "C"] = true ∧
      isValidTour (⟨exampleProblem, 1, 1, 1/2, 1⟩ : AntColony).problem
          ["A", "B", "C"] = true :=
  ⟨solvers_return_valid_tours.1 ⟨exampleProblem, 2⟩ ["A", "B", "C"]
      (fun _ => ["A", "C", "B"]) ["A", "B", "C"] [(0, 3), (1, 3)] exampleRun_hc,
    solvers_return_valid_tours.2.1 ⟨exampleProblem, 1, 1⟩ [["A", "B", "C"]]
      (fun _ => []) ["A", "B", "C"] [(0, 3)] exampleRun_ga,
    solvers_return_valid_tours.2.2 ⟨exampleProblem, 1, 1, 1/2, 1⟩
      (fun _ _ _ => 0) (fun _ => 1) ["A", "B", "C"] [(0, 3)] (by decide)
      (by decide) exampleRun_aco⟩

/-- Claim C3: For all three solvers, every convergence trace produced by a
completed `solve()` run has a non-increasing best-cost sequence. -/
theorem convergence_traces_nonincreasing :
    (∀ (hc : HillClimbing) (init : List City) (cand : ℕ → List City)
        (T : List City) (tr : List (ℕ × ℚ)),
      hc.solve init cand = .ok (T, tr) → traceNonIncreasing tr) ∧
      (∀ (ga : GeneticAlgorithm) (initPop : List (List City))
          (cands : ℕ → List (List City × ℕ)) (T : List City)
          (tr : List (ℕ × ℚ)),
        ga.solve initPop cands = .ok (T, tr) → traceNonIncreasing tr) ∧
      (∀ (ac : AntColony) (picks : ℕ → ℕ → ℕ → ℕ) (tau0 : City × City → ℚ)
          (T : List City) (tr : List (ℕ × ℚ)),
        ac.solve picks tau0 = .ok (T, tr) → traceNonIncreasing tr) :=
  ⟨fun _ _ _ _ _ h => hc_solve_trace h,
    fun _ _ _ _ _ h => ga_solve_trace h,
    fun _ _ _ _ _ h => aco_solve_trace h⟩

/-- Witness for C3: the traces of the three concrete runs are non-increasing. -/
theorem convergence_traces_nonincreasing_witness :
    traceNonIncreasing [(0, 3), (1, 3)] ∧ traceNonIncreasing [(0, 3)] ∧
      traceNonIncreasing [(0, 3)] :=
  ⟨convergence_traces_nonincreasing.1 ⟨exampleProblem, 2⟩ ["A", "B", "C"]
      (fun _ => ["A", "C", "B"]) ["A", "B", "C"] [(0, 3), (1, 3)] exampleRun_hc,
    convergence_traces_nonincreasing.2.1 ⟨exampleProblem, 1, 1⟩
      [["A", "B", "C"]] (fun _ => []) ["A", "B", "C"] [(0, 3)] exampleRun_ga,
    convergence_traces_nonincreasing.2.2 ⟨exampleProblem, 1, 1, 1/2, 1⟩
      (fun _ _ _ => 0) (fun _ => 1) ["A", "B", "C"] [(0, 3)] exampleRun_aco⟩

end TSP

